import Mathlib

/-!
Verification of the ThingMagic M5e RFID driver stack (circular byte buffer,
USART line discipline, and M5e packet protocol).

The definitions below are a shallow embedding of the C sources:
* `cbuffer_t` and its operations come from `circular_buffer.c` / `circular_buffer.h`
  (compiled with the default `CBUF_SIZE = 16` and `CBUF_OVR_CHAR` undefined);
* the CRC routines, packet state machine, command round trip and bring-up
  sequence come from `rfid_m5.c`;
* the receive interrupt handler comes from `usart.c` / `usart.h`.

All machine integers are modelled as `Nat` with explicit `% 2^w` where the C
type could overflow (`uint8_t` counters, the 16-bit CRC register, the 6-bit
`eol` bitfield).  Output arrays written sequentially at increasing indices are
modelled as append-only lists.  The C `while` loops of the two drain routines
are modelled with an explicit fuel argument; the fuel supplied at each call
site is an upper bound on the number of iterations the C loop can perform from
any well-formed state, so the models agree with the loops wherever the loops
terminate.
-/

namespace M5e

/-- The compile-time ring capacity `CBUF_SIZE` (default 16). -/
def CBUF_SIZE : Nat := 16

/-- Model of `struct cbuffer_t`: storage, write cursor `idx`, read cursor
`start`, the constant `TOP = size - 1`, the byte count `len` and the
`overflow` latch. -/
structure cbuffer_t where
  buffer : List Nat
  idx : Nat
  start : Nat
  TOP : Nat
  size : Nat
  len : Nat
  overflow : Bool
deriving Repr, DecidableEq

/-- `cbuffer_clear`: reset cursors, count and the overflow latch. -/
def cbuffer_clear (c : cbuffer_t) : cbuffer_t :=
  { c with idx := 0, start := 0, len := 0, overflow := false }

/-- `cbuffer_init`: a fresh buffer of capacity `CBUF_SIZE` (the malloc-ed
storage is modelled as zero-filled; no operation reads an unwritten slot). -/
def cbuffer_init : cbuffer_t :=
  cbuffer_clear
    { buffer := List.replicate CBUF_SIZE 0, idx := 0, start := 0,
      TOP := CBUF_SIZE - 1, size := CBUF_SIZE, len := 0, overflow := false }

/-- `bcpy`: copy one byte from `buffer[start]` to the output (only while the
output has room), advance `start` circularly and decrement `len`.  The output
array written at increasing indices is modelled as an append-only list, so the
C index `j` is `data.length` here. -/
def bcpy (c : cbuffer_t) (data : List Nat) (size : Nat) : List Nat × cbuffer_t :=
  let data' := if data.length < size then data ++ [c.buffer.getD c.start 0] else data
  let start' := if c.start = c.TOP then 0 else c.start + 1
  (data', { c with start := start', len := (c.len + 255) % 256 })

/-- The `while ((start != index) && (j < size))` loop of `cbuffer_pop`.
Each iteration appends one byte, so `size` initial fuel covers every possible
iteration of the C loop. -/
def popLoop (index size : Nat) : cbuffer_t → List Nat → Nat → List Nat × cbuffer_t
  | c, data, 0 => (data, c)
  | c, data, fuel + 1 =>
    if c.start ≠ index ∧ data.length < size then
      let p := bcpy c data size
      popLoop index size p.2 p.1 fuel
    else (data, c)

/-- `cbuffer_pop`: drain up to `size` bytes, with the unconditional first copy
under the overflow latch, then clear the latch. -/
def cbuffer_pop (c : cbuffer_t) (size : Nat) : List Nat × cbuffer_t :=
  if c.len ≠ 0 then
    let index := c.idx
    let p0 := if c.overflow then bcpy c [] size else ([], c)
    let p1 := popLoop index size p0.2 p0.1 size
    (p1.1, { p1.2 with overflow := false })
  else ([], c)

/-- The `while (loop && (start != index))` loop of `cbuffer_popm`: check the
end-of-message byte before `bcpy`, stop after copying it.  Note the C loop has
no `j < size` guard: `bcpy` keeps consuming buffered bytes after the output is
full.  From any well-formed state the loop runs at most `TOP + 1` iterations,
the fuel supplied at the call site. -/
def popmLoop (index size eom : Nat) : cbuffer_t → List Nat → Nat → List Nat × cbuffer_t
  | c, data, 0 => (data, c)
  | c, data, fuel + 1 =>
    if c.start ≠ index then
      let stop : Bool := c.buffer.getD c.start 0 == eom
      let p := bcpy c data size
      if stop then (p.1, p.2) else popmLoop index size eom p.2 p.1 fuel
    else (data, c)

/-- `cbuffer_popm`: drain until the `eom` byte (inclusive) or until the frozen
write cursor, with the unconditional first copy under the overflow latch, then
clear the latch. -/
def cbuffer_popm (c : cbuffer_t) (size eom : Nat) : List Nat × cbuffer_t :=
  if c.len ≠ 0 then
    let index := c.idx
    let q :=
      if c.overflow then
        let stop : Bool := c.buffer.getD c.start 0 == eom
        let p := bcpy c [] size
        if stop then (p.1, p.2) else popmLoop index size eom p.2 p.1 (c.TOP + 1)
      else popmLoop index size eom c [] (c.TOP + 1)
    (q.1, { q.2 with overflow := false })
  else ([], c)

/-- `cbuffer_push`: reject when the latch is set; otherwise latch overflow if
this write takes the slot just before the read cursor, store the byte at
`idx`, advance `idx` circularly and increment `len`. -/
def cbuffer_push (c : cbuffer_t) (rxc : Nat) : Bool × cbuffer_t :=
  if c.overflow then (false, c)
  else
    let ovf : Bool := if c.start ≠ 0 then c.idx == c.start - 1 else c.idx == c.TOP
    let buffer' := c.buffer.set c.idx rxc
    let idx' := if c.idx = c.TOP then 0 else c.idx + 1
    (true, { c with buffer := buffer', idx := idx', len := (c.len + 1) % 256, overflow := ovf })

/-- Push a whole list of bytes in order, collecting each push's result. -/
def pushAll : cbuffer_t → List Nat → List Bool × cbuffer_t
  | c, [] => ([], c)
  | c, b :: rest =>
    let p := cbuffer_push c b
    let q := pushAll p.2 rest
    (p.1 :: q.1, q.2)

/-- The `d` bytes stored circularly in `buf` (of capacity 16) starting at
position `s`: entries `buf[(s + i) % 16]` for `i < d`. -/
def window (buf : List Nat) : Nat → Nat → List Nat
  | _, 0 => []
  | s, d + 1 => buf.getD (s % 16) 0 :: window buf (s + 1) d

/-- The backlog: the bytes currently held by the buffer, oldest first. -/
def backlog (c : cbuffer_t) : List Nat :=
  window c.buffer c.start c.len

/-- Well-formedness of a ring-buffer state (established for every reachable
state below): geometry fields match the compiled `CBUF_SIZE = 16`, cursors are
in range, and the byte count agrees with the cursors and the latch. -/
structure Inv (c : cbuffer_t) : Prop where
  hsize : c.size = 16
  htop : c.TOP = 15
  hbuf : c.buffer.length = 16
  hidx : c.idx < 16
  hstart : c.start < 16
  hover : c.overflow = true → c.idx = c.start ∧ c.len = 16
  hnover : c.overflow = false → c.len = (c.idx + 16 - c.start) % 16

/-- States reachable from the freshly initialized buffer by any sequence of
push, pop, pop-until and clear operations. -/
inductive Reachable : cbuffer_t → Prop where
  | init : Reachable cbuffer_init
  | push (b : Nat) {c : cbuffer_t} : Reachable c → Reachable (cbuffer_push c b).2
  | pop (size : Nat) {c : cbuffer_t} : Reachable c → Reachable (cbuffer_pop c size).2
  | popm (size eom : Nat) {c : cbuffer_t} : Reachable c → Reachable (cbuffer_popm c size eom).2
  | clear {c : cbuffer_t} : Reachable c → Reachable (cbuffer_clear c)

/-! ### Protocol layer (`rfid_m5.c`) -/

/-- Stage codes of the receive state machine (the `#define`s in `rx_pkt`). -/
def END : Nat := 0

/-- Stage: waiting for the 0xFF start-of-header byte. -/
def SOH : Nat := 1

/-- Stage: waiting for the length byte. -/
def LEN : Nat := 2

/-- Stage: waiting for the opcode byte. -/
def CMD : Nat := 3

/-- Stage: waiting for the two status bytes. -/
def STATUS : Nat := 4

/-- Stage: waiting for the payload bytes. -/
def DATA : Nat := 5

/-- Stage: waiting for the two CRC bytes. -/
def CRC : Nat := 6

/-- Model of `struct rfid_t`: the session state driven by the protocol
routines.  `error` doubles as the stage of the receive state machine. -/
structure rfid_t where
  soh : Nat
  len : Nat
  opcode : Nat
  status : Nat
  data : List Nat
  crc : Nat
  error : Nat
deriving Repr, DecidableEq

/-- `CRC_calcCrc8`: one byte of the CCITT-16 accumulation, eight
shift/XOR steps, most-significant data bit first, polynomial 0x1021 on a
16-bit register. -/
def CRC_calcCrc8 (crcReg u8Data : Nat) : Nat :=
  (List.range 8).foldl
    (fun crc i =>
      let xorFlag := crc &&& 0x8000
      let dcdBitMask := 0x80 >>> i
      let bit := if u8Data &&& dcdBitMask = dcdBitMask then 1 else 0
      let crc := ((crc <<< 1) % 65536) ||| bit
      if xorFlag ≠ 0 then crc ^^^ 0x1021 else crc)
    crcReg

/-- `m5_crc`: CRC over the length byte, the opcode byte, (when
`include_status`) the two status bytes high then low, and the first `len`
payload bytes, starting from register 0xFFFF. -/
def m5_crc (r : rfid_t) (include_status : Bool) : Nat :=
  let crc16 := 0xffff
  let crc16 := CRC_calcCrc8 crc16 r.len
  let crc16 := CRC_calcCrc8 crc16 r.opcode
  let crc16 :=
    if include_status then
      CRC_calcCrc8 (CRC_calcCrc8 crc16 ((r.status >>> 8) &&& 0xff)) (r.status &&& 0xff)
    else crc16
  (List.range r.len).foldl (fun acc i => CRC_calcCrc8 acc (r.data.getD i 0)) crc16

/-- `tx_pkt`: the bytes written to the wire, header, length, opcode, payload,
then the CRC most-significant byte first. -/
def tx_pkt (r : rfid_t) : List Nat :=
  [r.soh, r.len, r.opcode] ++ (List.range r.len).map (fun i => r.data.getD i 0)
    ++ [(r.crc >>> 8) &&& 0xff, r.crc &&& 0xff]

/-- One `usart_get` poll of the serial line.  The line is modelled as the
schedule of successive poll results: `none` when no byte was buffered at that
poll, `some b` when byte `b` was returned. -/
def poll : List (Option Nat) → Option Nat × List (Option Nat)
  | [] => (none, [])
  | o :: rest => (o, rest)

/-- The statements of `case STATUS` in `rx_pkt`.  They run both when the
switch dispatches on `STATUS` and, by fallthrough, right after `case CMD` in
the same iteration (`case CMD` has no `break`). -/
def statusBlock (r : rfid_t) (i : Nat) (s : List (Option Nat)) :
    rfid_t × Nat × List (Option Nat) :=
  if i < 2 then
    match poll s with
    | (some b, s') =>
      ({ r with status := if i = 0 then (b <<< 8) ||| (r.status &&& 0xff)
                          else (r.status &&& 0xff00) ||| b }, i + 1, s')
    | (none, s') => (r, i, s')
  else
    ({ r with error := DATA }, 0, s)

/-- One iteration of the `while (timeout)` loop of `rx_pkt`: the `switch` on
the current stage followed by the unconditional `timeout--`.  Returns the new
session state, loop index `i`, timeout and remaining schedule. -/
def rx_iter (r : rfid_t) (i timeout : Nat) (s : List (Option Nat)) :
    rfid_t × Nat × Nat × List (Option Nat) :=
  let q :=
    if r.error = SOH then
      match poll s with
      | (some b, s') =>
        let r := { r with soh := b }
        (if b = 0xff then { r with error := LEN } else r, i, timeout, s')
      | (none, s') => (r, i, timeout, s')
    else if r.error = LEN then
      match poll s with
      | (some b, s') => ({ r with len := b, error := CMD }, i, timeout, s')
      | (none, s') => (r, i, timeout, s')
    else if r.error = CMD then
      let p :=
        match poll s with
        | (some b, s') => ({ r with opcode := b, error := STATUS }, 0, s')
        | (none, s') => (r, i, s')
      let p := statusBlock p.1 p.2.1 p.2.2
      (p.1, p.2.1, timeout, p.2.2)
    else if r.error = STATUS then
      let p := statusBlock r i s
      (p.1, p.2.1, timeout, p.2.2)
    else if r.error = DATA then
      if i < r.len then
        match poll s with
        | (some b, s') => ({ r with data := r.data.set i b }, i + 1, timeout, s')
        | (none, s') => (r, i, timeout, s')
      else ({ r with error := CRC }, 0, timeout, s)
    else if r.error = CRC then
      if i < 2 then
        match poll s with
        | (some b, s') =>
          ({ r with crc := if i = 0 then (b <<< 8) ||| (r.crc &&& 0xff)
                           else (r.crc &&& 0xff00) ||| b }, i + 1, timeout, s')
        | (none, s') => (r, i, timeout, s')
      else
        (if m5_crc r true = r.crc then { r with error := END } else r, i, 1, s)
    else
      (r, i, 1, s)
  (q.1, q.2.1, q.2.2.1 - 1, q.2.2.2)

/-- The `while (timeout)` loop of `rx_pkt`.  The extra fuel argument only
bounds the iteration count; since `timeout` strictly decreases every
iteration, fuel equal to the initial timeout makes this the exact loop. -/
def rx_pkt_go : rfid_t → Nat → Nat → List (Option Nat) → Nat → rfid_t × List (Option Nat)
  | r, _, _, s, 0 => (r, s)
  | r, i, timeout, s, fuel + 1 =>
    if timeout = 0 then (r, s)
    else
      let q := rx_iter r i timeout s
      rx_pkt_go q.1 q.2.1 q.2.2.1 q.2.2.2 fuel

/-- `rx_pkt`: initialize `i = 0` and the stage to `SOH`, then drive the loop. -/
def rx_pkt (r : rfid_t) (s : List (Option Nat)) (timeout : Nat) :
    rfid_t × List (Option Nat) :=
  rx_pkt_go { r with error := SOH } 0 timeout s timeout

/-- `send_cmd`: remember the opcode, set the header, compute the outbound CRC
(status excluded), transmit, receive with a budget of 500 iterations, then
declare success exactly when the stage is `END`, the echoed opcode matches and
the status word is zero.  Also returns the transmitted frame and the remaining
schedule. -/
def send_cmd (r : rfid_t) (s : List (Option Nat)) :
    Bool × List Nat × rfid_t × List (Option Nat) :=
  let cmd := r.opcode
  let r := { r with soh := 0xff }
  let r := { r with crc := m5_crc r false }
  let out := tx_pkt r
  let p := rx_pkt r s 500
  ((p.1.error == 0) && (p.1.opcode == cmd) && (p.1.status == 0), out, p.1, p.2)

/-- One guarded configuration step of `rfid_resume`: run `send_cmd` on the
prepared command only when the recorded stage error is zero, collecting the
transmitted frame. -/
def guarded_cmd (r : rfid_t) (s : List (Option Nat)) (prep : rfid_t → rfid_t) :
    List (List Nat) × rfid_t × List (Option Nat) :=
  if r.error = 0 then
    let p := send_cmd (prep r) s
    ([p.2.1], p.2.2.1, p.2.2.2)
  else ([], r, s)

/-- `rfid_resume`: the bring-up sequence.  Boot firmware (0x04), then, each
gated on a zero stage error: set region (0x97), set tag protocol (0x93), set
power mode (0x98), optionally set reduced transmit power (0x92, compile-time
`RFID_M5_LOWTXPWR` modelled by `lowtxpwr` with bytes `txh`/`txl`), set maximum
tag memory length (0x9a).  A boot failure whose status is 0x0101 is converted
to success.  Returns the final stage error, the transmitted frames in order,
the final state and the remaining schedule. -/
def rfid_resume (r : rfid_t) (s : List (Option Nat)) (lowtxpwr : Bool) (txh txl : Nat) :
    Nat × List (List Nat) × rfid_t × List (Option Nat) :=
  let r := { r with data := List.replicate 255 0 }
  let p1 := send_cmd { r with len := 0, opcode := 0x04 } s
  let r1 := p1.2.2.1
  let s1 := p1.2.2.2
  let r1 := if r1.error ≠ 0 ∧ r1.status = 0x0101 then { r1 with error := 0 } else r1
  let q2 := guarded_cmd r1 s1
    (fun r => { r with len := 0x01, opcode := 0x97, data := r.data.set 0 0x02 })
  let q3 := guarded_cmd q2.2.1 q2.2.2
    (fun r => { r with len := 0x02, opcode := 0x93, data := (r.data.set 0 0x00).set 1 0x05 })
  let q4 := guarded_cmd q3.2.1 q3.2.2
    (fun r => { r with len := 0x01, opcode := 0x98, data := r.data.set 0 0x03 })
  let q5 :=
    if lowtxpwr then
      guarded_cmd q4.2.1 q4.2.2
        (fun r => { r with len := 0x02, opcode := 0x92, data := (r.data.set 0 txh).set 1 txl })
    else ([], q4.2.1, q4.2.2)
  let q6 := guarded_cmd q5.2.1 q5.2.2
    (fun r => { r with len := 0x03, opcode := 0x9a,
                       data := ((r.data.set 0 0x01).set 1 0x02).set 2 0x01 })
  (q6.2.1.error, p1.2.1 :: (q2.1 ++ q3.1 ++ q4.1 ++ q5.1 ++ q6.1), q6.2.1, q6.2.2)

/-! ### Serial line (`usart.c`) -/

/-- Model of the receive side of `struct usart_t`: the ring buffer and the
6-bit `eol` bitfield counter of the `flags` union. -/
structure usart_t where
  rx : cbuffer_t
  eol : Nat
deriving Repr, DecidableEq

/-- `ISR(USART0_RX_vect)` with `USART0_EOL` defined as `eolByte`: if the
received byte equals the terminator, increment the 6-bit `eol` bitfield
(arithmetic is modulo 64, the width of the bitfield), then push the byte into
the receive ring. -/
def ISR_USART0_RX (eolByte : Nat) (u : usart_t) (rxc : Nat) : usart_t :=
  let u := if rxc = eolByte then { u with eol := (u.eol + 1) % 64 } else u
  { u with rx := (cbuffer_push u.rx rxc).2 }

/-- Number of actual bytes (non-`none` entries) in a poll schedule; the
difference across a step is the number of bytes that step consumed from the
serial line. -/
def countSome (s : List (Option Nat)) : Nat := (s.filterMap id).length

/-- The opcode byte (offset 2) of each transmitted frame. -/
def frame_opcodes (fs : List (List Nat)) : List Nat := fs.map (fun f => f.getD 2 0)

/-- A baseline session state for concrete test inputs. -/
def rfid0 : rfid_t :=
  { soh := 0, len := 0, opcode := 0, status := 0, data := [], crc := 0, error := 0 }

/-- A poll schedule delivering a complete zero-length inbound frame with the
given opcode, status word and CRC, one byte per poll. -/
def frame0 (op st crc : Nat) : List (Option Nat) :=
  [some 0xff, some 0, some op, some (st >>> 8), some (st &&& 0xff),
   some (crc >>> 8), some (crc &&& 0xff)]


/-- A poll schedule answering the whole bring-up sequence with zero-length
success frames (status 0, correct CRC) for opcodes 0x04, 0x97, 0x93, 0x98 and
0x9a in order. -/
def resume_ok_stream : List (Option Nat) :=
  frame0 0x04 0 50244 ++ frame0 0x97 0 30622 ++ frame0 0x93 0 14106 ++
    frame0 0x98 0 34417 ++ frame0 0x9a 0 42547

/-! ### Theorems -/

/-- With the status word excluded (outbound direction), `m5_crc` does not
depend on the status field. -/
theorem m5_crc_status_irrelevant (r : rfid_t) (s : Nat) :
    m5_crc { r with status := s } false = m5_crc r false := by
  simp [m5_crc]

/-- C2: the CRC routine, with polynomial 0x1021, initial register 0xFFFF and
most-significant-bit-first accumulation over the length byte 0x02, the opcode
byte 0x21 and the payload bytes 0x03, 0xE8 — status excluded on an outbound
frame, so the result is independent of the status word — computes 0xD509, the
checksum carried by the reference frame ff022103e8d509. -/
theorem m5_crc_reference (status : Nat) :
    m5_crc { soh := 0, len := 0x02, opcode := 0x21, status := status,
             data := [0x03, 0xe8], crc := 0, error := 0 } false = 0xD509 := by
  have h := m5_crc_status_irrelevant
    { soh := 0, len := 0x02, opcode := 0x21, status := 0,
      data := [0x03, 0xe8], crc := 0, error := 0 } status
  exact h.trans (by decide)

/-- C3: `send_cmd` succeeds exactly when, after the exchange, the receive
state machine reached the `END` (Done) stage, the echoed opcode equals the
opcode that was sent, and the received status word is zero. -/
theorem send_cmd_success_iff (r : rfid_t) (s : List (Option Nat)) :
    (send_cmd r s).1 = true ↔
      ((rx_pkt { r with soh := 0xff, crc := m5_crc { r with soh := 0xff } false } s 500).1.error = END ∧
       (rx_pkt { r with soh := 0xff, crc := m5_crc { r with soh := 0xff } false } s 500).1.opcode = r.opcode ∧
       (rx_pkt { r with soh := 0xff, crc := m5_crc { r with soh := 0xff } false } s 500).1.status = 0) := by
  simp [send_cmd, END, Bool.and_eq_true, beq_iff_eq, and_assoc]

/-- C5 counterexample: push 1, 2, 3 into a fresh buffer and drain with
`cbuffer_popm`, `max_len = 2` and a terminator byte (9) that never occurs.
The call copies only [1, 2], yet the third byte does not remain stored: the
count drops to 0 and a subsequent pop returns nothing, contradicting the
claim that excess bytes stay available. -/
theorem popm_discards_excess :
    (cbuffer_popm (pushAll cbuffer_init [1, 2, 3]).2 2 9).1 = [1, 2] ∧
    (cbuffer_popm (pushAll cbuffer_init [1, 2, 3]).2 2 9).2.len = 0 ∧
    (cbuffer_pop (cbuffer_popm (pushAll cbuffer_init [1, 2, 3]).2 2 9).2 16).1 = [] ∧
    ¬ (cbuffer_pop (cbuffer_popm (pushAll cbuffer_init [1, 2, 3]).2 2 9).2 16).1 = [3] := by
  decide

/-- C7 counterexample: with the line terminator configured as 13 and the
`eol` bitfield already at its maximum 63, receiving a terminator byte wraps
the counter to 0 instead of saturating at 63. -/
theorem eol_wraps_at_63 :
    (ISR_USART0_RX 13 { rx := cbuffer_init, eol := 63 } 13).eol = 0 ∧
    ¬ (ISR_USART0_RX 13 { rx := cbuffer_init, eol := 63 } 13).eol = 63 := by
  decide

/-- C7 (amended): for every received byte equal to the configured line
terminator, the receive interrupt handler increments the 6-bit `eol` counter
modulo 64 before pushing the byte into the ring buffer; in particular an
increment at 63 wraps to 0. -/
theorem isr_eol_increment (eolByte : Nat) (u : usart_t) (rxc : Nat) (h : rxc = eolByte) :
    (ISR_USART0_RX eolByte u rxc).eol = (u.eol + 1) % 64 ∧
    (ISR_USART0_RX eolByte u rxc).rx = (cbuffer_push u.rx rxc).2 ∧
    (u.eol = 63 → (ISR_USART0_RX eolByte u rxc).eol = 0) := by
  subst h
  refine ⟨by simp [ISR_USART0_RX], by simp [ISR_USART0_RX], fun he => ?_⟩
  simp [ISR_USART0_RX, he]

/-- Witness for C7 (amended) at the concrete state `eol = 63`, byte 13. -/
theorem isr_eol_increment_witness :
    (ISR_USART0_RX 13 { rx := cbuffer_init, eol := 63 } 13).eol = (63 + 1) % 64 ∧
    (ISR_USART0_RX 13 { rx := cbuffer_init, eol := 63 } 13).rx =
      (cbuffer_push cbuffer_init 13).2 ∧
    (63 = 63 → (ISR_USART0_RX 13 { rx := cbuffer_init, eol := 63 } 13).eol = 0) :=
  isr_eol_increment 13 { rx := cbuffer_init, eol := 63 } 13 rfl

/-- C8 counterexample: one single iteration of the receive loop, dispatched
in the opcode stage with two bytes available, consumes both of them — the
opcode byte and the first status byte — because `case CMD` falls through into
`case STATUS`. -/
theorem rx_cmd_iteration_two_bytes :
    ¬ (countSome [some 33, some 171] ≤
        countSome (rx_iter { rfid0 with error := CMD } 0 5 [some 33, some 171]).2.2.2 + 1) ∧
    (rx_iter { rfid0 with error := CMD } 0 5 [some 33, some 171]).1.opcode = 33 ∧
    (rx_iter { rfid0 with error := CMD } 0 5 [some 33, some 171]).1.status = 0xAB00 := by
  decide

/-- A poll consumes at most one byte from the schedule. -/
theorem countSome_poll (s : List (Option Nat)) : countSome s ≤ countSome (poll s).2 + 1 := by
  cases s with
  | nil => simp [poll, countSome]
  | cons o rest => cases o <;> simp [poll, countSome]

/-- The `STATUS` block consumes at most one byte. -/
theorem countSome_statusBlock (r : rfid_t) (i : Nat) (s : List (Option Nat)) :
    countSome s ≤ countSome (statusBlock r i s).2.2 + 1 := by
  have hp := countSome_poll s
  unfold statusBlock
  split
  · split <;> rename_i heq <;> rw [heq] at hp <;> simpa using hp
  · simp

/-- An iteration dispatched in any stage other than `CMD` consumes at most one
byte from the serial line. -/
theorem rx_iter_consumes_one (r : rfid_t) (i t : Nat) (s : List (Option Nat))
    (hne : r.error ≠ CMD) :
    countSome s ≤ countSome (rx_iter r i t s).2.2.2 + 1 := by
  have hp := countSome_poll s
  have hsb := countSome_statusBlock r i s
  unfold rx_iter
  split_ifs
  all_goals
    first
    | (exact absurd (by assumption) hne)
    | (simp; done)
    | (simp at hsb ⊢; omega)
    | (split <;> rename_i heq <;> rw [heq] at hp <;> simp at hp ⊢ <;> omega)

/-- Any iteration of the receive loop consumes at most two bytes. -/
theorem rx_iter_consumes_two (r : rfid_t) (i t : Nat) (s : List (Option Nat)) :
    countSome s ≤ countSome (rx_iter r i t s).2.2.2 + 2 := by
  by_cases h3 : r.error = CMD
  · have hp := countSome_poll s
    unfold rx_iter
    rw [if_neg (by rw [h3]; decide), if_neg (by rw [h3]; decide), if_pos h3]
    split <;> rename_i heq
    · rename_i b s'
      rw [heq] at hp
      have hsb := countSome_statusBlock { r with opcode := b, error := STATUS } 0 s'
      simp at hp hsb ⊢
      omega
    · rename_i s'
      rw [heq] at hp
      have hsb := countSome_statusBlock r i s'
      simp at hp hsb ⊢
      omega
  · have h := rx_iter_consumes_one r i t s h3
    omega

/-- C8 (amended): a single iteration of the receive loop consumes at most two
bytes from the serial line, and at most one byte when it is dispatched in any
stage other than the opcode stage `CMD`; the `CMD` stage may consume two —
the opcode byte and the first status byte — because `case CMD` falls through
into `case STATUS` within the same iteration. -/
theorem rx_iter_byte_bound (r : rfid_t) (i t : Nat) (s : List (Option Nat)) :
    countSome s ≤ countSome (rx_iter r i t s).2.2.2 + 2 ∧
    (r.error ≠ CMD → countSome s ≤ countSome (rx_iter r i t s).2.2.2 + 1) :=
  ⟨rx_iter_consumes_two r i t s, fun h => rx_iter_consumes_one r i t s h⟩

/-- Witness for C8 (amended) on a concrete iteration in the `SOH` stage. -/
theorem rx_iter_byte_bound_witness :
    countSome [some 5] ≤ countSome (rx_iter rfid0 0 5 [some 5]).2.2.2 + 2 ∧
    countSome [some 5] ≤ countSome (rx_iter rfid0 0 5 [some 5]).2.2.2 + 1 :=
  ⟨(rx_iter_byte_bound rfid0 0 5 [some 5]).1,
   (rx_iter_byte_bound rfid0 0 5 [some 5]).2 (by decide)⟩

/-- C10: whenever the overflow latch is set, `cbuffer_push` returns false and
leaves the buffer state — stored bytes, cursors, count and the latch itself —
exactly unchanged. -/
theorem push_overflow_rejected (c : cbuffer_t) (b : Nat) (h : c.overflow = true) :
    (cbuffer_push c b).1 = false ∧ (cbuffer_push c b).2 = c := by
  simp [cbuffer_push, h]

/-- Witness for C10 on the concrete buffer obtained by filling a fresh ring
with sixteen bytes. -/
theorem push_overflow_rejected_witness :
    (cbuffer_push (pushAll cbuffer_init (List.replicate 16 7)).2 5).1 = false ∧
    (cbuffer_push (pushAll cbuffer_init (List.replicate 16 7)).2 5).2 =
      (pushAll cbuffer_init (List.replicate 16 7)).2 :=
  push_overflow_rejected (pushAll cbuffer_init (List.replicate 16 7)).2 5 (by decide)

theorem window_zero (buf : List Nat) (s : Nat) : window buf s 0 = [] := rfl

theorem window_succ (buf : List Nat) (s d : Nat) :
    window buf s (d + 1) = buf.getD (s % 16) 0 :: window buf (s + 1) d := rfl

theorem window_mod (buf : List Nat) (d : Nat) :
    ∀ s t : Nat, s % 16 = t % 16 → window buf s d = window buf t d := by
  induction d with
  | zero => intro s t _; rfl
  | succ d ih =>
    intro s t h
    rw [window_succ, window_succ, h, ih (s + 1) (t + 1) (by omega)]

theorem length_window (buf : List Nat) (d : Nat) : ∀ s, (window buf s d).length = d := by
  induction d with
  | zero => intro s; rfl
  | succ d ih => intro s; rw [window_succ]; simp [ih]

theorem popLoop_spec (index size : Nat) (fuel : Nat) :
    ∀ (c : cbuffer_t) (data : List Nat),
      c.TOP = 15 → c.start < 16 → index < 16 →
      c.len = (index + 16 - c.start) % 16 →
      min ((index + 16 - c.start) % 16) (size - data.length) ≤ fuel →
      popLoop index size c data fuel =
        (data ++ (window c.buffer c.start ((index + 16 - c.start) % 16)).take (size - data.length),
         { c with
            start := (c.start + min ((index + 16 - c.start) % 16) (size - data.length)) % 16,
            len := c.len - min ((index + 16 - c.start) % 16) (size - data.length) }) := by
  induction fuel with
  | zero =>
    intro c data htop hs hidx hlen hfuel
    have h0 : min ((index + 16 - c.start) % 16) (size - data.length) = 0 := by omega
    rw [popLoop, h0]
    rcases Nat.min_eq_zero_iff.mp h0 with hd | hx
    · rw [hd]
      simp [window_zero, Nat.mod_eq_of_lt hs]
    · rw [hx]
      simp [Nat.mod_eq_of_lt hs]
  | succ fuel ih =>
    intro c data htop hs hidx hlen hfuel
    rw [popLoop]
    by_cases hguard : c.start ≠ index ∧ data.length < size
    · rw [if_pos hguard]
      obtain ⟨hne, hlt⟩ := hguard
      have hd1 : 1 ≤ (index + 16 - c.start) % 16 := by omega
      have hb : bcpy c data size =
          (data ++ [c.buffer.getD c.start 0],
           { c with start := (c.start + 1) % 16, len := c.len - 1 }) := by
        simp only [bcpy, if_pos hlt, Prod.mk.injEq]
        refine ⟨trivial, ?_⟩
        simp only [cbuffer_t.mk.injEq]
        refine ⟨trivial, trivial, ?_, trivial, trivial, by omega, trivial⟩
        rw [htop]
        split <;> omega
      rw [hb]
      rw [ih { c with start := (c.start + 1) % 16, len := c.len - 1 }
            (data ++ [c.buffer.getD c.start 0]) htop (by show (c.start + 1) % 16 < 16; omega)
            hidx (by show c.len - 1 = (index + 16 - (c.start + 1) % 16) % 16; omega)
            (by simp only [List.length_append, List.length_singleton]
                show min ((index + 16 - (c.start + 1) % 16) % 16) (size - (data.length + 1)) ≤ fuel
                omega)]
      simp only [Prod.mk.injEq]
      constructor
      · -- data component
        have hd' : (index + 16 - (c.start + 1) % 16) % 16 = (index + 16 - c.start) % 16 - 1 := by
          omega
        obtain ⟨d', hdd⟩ : ∃ d', (index + 16 - c.start) % 16 = d' + 1 :=
          ⟨(index + 16 - c.start) % 16 - 1, by omega⟩
        rw [hd', hdd]
        rw [window_succ, Nat.mod_eq_of_lt hs]
        rw [window_mod c.buffer (d' + 1 - 1) ((c.start + 1) % 16) (c.start + 1) (by omega)]
        have hsz : size - data.length = (size - (data.length + 1)) + 1 := by omega
        rw [hsz, List.take_succ_cons]
        simp only [List.length_append, List.length_singleton, Nat.add_sub_cancel,
          List.append_assoc, List.cons_append, List.nil_append]
      · -- state component
        simp only [List.length_append, List.length_singleton, cbuffer_t.mk.injEq]
        refine ⟨trivial, trivial, by omega, trivial, trivial, by omega, trivial⟩
    · rw [if_neg hguard]
      have h0 : min ((index + 16 - c.start) % 16) (size - data.length) = 0 := by
        rcases not_and_or.mp hguard with h | h
        · have hse : c.start = index := not_not.mp h
          omega
        · omega
      rw [h0]
      rcases Nat.min_eq_zero_iff.mp h0 with hd | hx
      · rw [hd]
        simp [window_zero, Nat.mod_eq_of_lt hs]
      · rw [hx]
        simp [Nat.mod_eq_of_lt hs]

theorem bcpy_snd (c : cbuffer_t) (data : List Nat) (size : Nat)
    (htop : c.TOP = 15) (hs : c.start < 16) (hl1 : 1 ≤ c.len) (hl2 : c.len ≤ 255) :
    (bcpy c data size).2 = { c with start := (c.start + 1) % 16, len := c.len - 1 } := by
  simp only [bcpy]
  simp only [cbuffer_t.mk.injEq]
  refine ⟨trivial, trivial, ?_, trivial, trivial, by omega, trivial⟩
  rw [htop]
  split <;> omega

theorem bcpy_fst (c : cbuffer_t) (data : List Nat) (size : Nat) :
    (bcpy c data size).1 = data ++ [c.buffer.getD c.start 0].take (size - data.length) := by
  simp only [bcpy]
  split_ifs with h
  · rw [show size - data.length = (size - data.length - 1) + 1 by omega, List.take_succ_cons]
    simp
  · rw [show size - data.length = 0 by omega]
    simp

theorem popmLoop_pres (index size eom : Nat) (fuel : Nat) :
    ∀ (c : cbuffer_t) (data : List Nat),
      c.TOP = 15 → c.start < 16 → index < 16 →
      c.len = (index + 16 - c.start) % 16 →
      ∃ n, n ≤ (index + 16 - c.start) % 16 ∧
        (popmLoop index size eom c data fuel).2 =
          { c with start := (c.start + n) % 16, len := c.len - n } := by
  induction fuel with
  | zero =>
    intro c data htop hs hidx hlen
    refine ⟨0, by omega, ?_⟩
    rw [popmLoop]
    simp [Nat.mod_eq_of_lt hs]
  | succ fuel ih =>
    intro c data htop hs hidx hlen
    rw [popmLoop]
    by_cases hne : c.start ≠ index
    · rw [if_pos hne]
      have hd1 : 1 ≤ (index + 16 - c.start) % 16 := by omega
      have hb2 := bcpy_snd c data size htop hs (by omega) (by omega)
      by_cases hstop : (c.buffer.getD c.start 0 == eom) = true
      · simp only [hstop, if_true, hb2]
        exact ⟨1, by omega, rfl⟩
      · simp only [Bool.not_eq_true] at hstop
        simp only [hstop, Bool.false_eq_true, if_false, hb2]
        obtain ⟨n, hn, heq⟩ := ih { c with start := (c.start + 1) % 16, len := c.len - 1 }
          (bcpy c data size).1 htop (by show (c.start + 1) % 16 < 16; omega) hidx
          (by show c.len - 1 = (index + 16 - (c.start + 1) % 16) % 16; omega)
        rw [show ({ c with start := (c.start + 1) % 16, len := c.len - 1 } : cbuffer_t).start
              = (c.start + 1) % 16 from rfl] at hn heq
        refine ⟨n + 1, by omega, ?_⟩
        rw [heq]
        simp only [cbuffer_t.mk.injEq]
        refine ⟨trivial, trivial, by omega, trivial, trivial, by omega, trivial⟩
    · rw [if_neg hne]
      refine ⟨0, by omega, ?_⟩
      simp [Nat.mod_eq_of_lt hs]

theorem popmLoop_spec (index size eom : Nat) (fuel : Nat) :
    ∀ (c : cbuffer_t) (data : List Nat) (k : Nat),
      c.TOP = 15 → c.start < 16 → index < 16 →
      c.len = (index + 16 - c.start) % 16 →
      k ≤ (index + 16 - c.start) % 16 →
      (∀ i, i < k → (window c.buffer c.start ((index + 16 - c.start) % 16)).getD i 0 ≠ eom) →
      (k < (index + 16 - c.start) % 16 →
        (window c.buffer c.start ((index + 16 - c.start) % 16)).getD k 0 = eom) →
      min (k + 1) ((index + 16 - c.start) % 16) ≤ fuel →
      popmLoop index size eom c data fuel =
        (data ++ ((window c.buffer c.start ((index + 16 - c.start) % 16)).take
            (min (k + 1) ((index + 16 - c.start) % 16))).take (size - data.length),
         { c with
            start := (c.start + min (k + 1) ((index + 16 - c.start) % 16)) % 16,
            len := c.len - min (k + 1) ((index + 16 - c.start) % 16) }) := by
  induction fuel with
  | zero =>
    intro c data k htop hs hidx hlen hk hno hyes hfuel
    have hd0 : (index + 16 - c.start) % 16 = 0 := by omega
    rw [popmLoop, hd0]
    simp [window_zero, Nat.mod_eq_of_lt hs]
  | succ fuel ih =>
    intro c data k htop hs hidx hlen hk hno hyes hfuel
    rw [popmLoop]
    by_cases hne : c.start ≠ index
    · rw [if_pos hne]
      have hd1 : 1 ≤ (index + 16 - c.start) % 16 := by omega
      have hd' : (index + 16 - (c.start + 1) % 16) % 16 = (index + 16 - c.start) % 16 - 1 := by
        omega
      have hw : window c.buffer c.start ((index + 16 - c.start) % 16)
          = c.buffer.getD c.start 0 ::
            window c.buffer ((c.start + 1) % 16) ((index + 16 - (c.start + 1) % 16) % 16) := by
        rw [show (index + 16 - c.start) % 16 = ((index + 16 - c.start) % 16 - 1) + 1 by omega,
            window_succ, Nat.mod_eq_of_lt hs,
            window_mod c.buffer ((index + 16 - c.start) % 16 - 1) (c.start + 1)
              ((c.start + 1) % 16) (by omega), hd']
      have hb2 := bcpy_snd c data size htop hs (by omega) (by omega)
      have hb1 := bcpy_fst c data size
      cases k with
      | zero =>
        have heom : c.buffer.getD c.start 0 = eom := by
          have h := hyes hd1
          rw [hw] at h
          simpa using h
        have hstop : (c.buffer.getD c.start 0 == eom) = true := beq_iff_eq.mpr heom
        simp only [hstop, if_true]
        rw [hb1, hb2, show min (0 + 1) ((index + 16 - c.start) % 16) = 1 by omega, hw,
            show (c.buffer.getD c.start 0 ::
                window c.buffer ((c.start + 1) % 16)
                  ((index + 16 - (c.start + 1) % 16) % 16)).take 1
              = [c.buffer.getD c.start 0] from rfl]
      | succ k' =>
        have hne0 : (c.buffer.getD c.start 0 == eom) = false := by
          have h0 := hno 0 (Nat.succ_pos k')
          rw [hw] at h0
          simp only [List.getD_cons_zero] at h0
          exact beq_eq_false_iff_ne.mpr h0
        simp only [hne0, Bool.false_eq_true, if_false]
        have hno' : ∀ i, i < k' →
            (window c.buffer ((c.start + 1) % 16)
              ((index + 16 - (c.start + 1) % 16) % 16)).getD i 0 ≠ eom := by
          intro i hi
          have h := hno (i + 1) (by omega)
          rw [hw] at h
          simpa using h
        have hyes' : k' < (index + 16 - (c.start + 1) % 16) % 16 →
            (window c.buffer ((c.start + 1) % 16)
              ((index + 16 - (c.start + 1) % 16) % 16)).getD k' 0 = eom := by
          intro hk'
          have h := hyes (by omega)
          rw [hw] at h
          simpa using h
        by_cases hlt : data.length < size
        · have hb1' : (bcpy c data size).1 = data ++ [c.buffer.getD c.start 0] := by
            rw [hb1, show size - data.length = (size - data.length - 1) + 1 by omega,
                List.take_succ_cons]
            simp
          rw [hb1', hb2]
          rw [ih { c with start := (c.start + 1) % 16, len := c.len - 1 }
                (data ++ [c.buffer.getD c.start 0]) k' htop
                (by show (c.start + 1) % 16 < 16; omega) hidx
                (by show c.len - 1 = (index + 16 - (c.start + 1) % 16) % 16; omega)
                (by show k' ≤ (index + 16 - (c.start + 1) % 16) % 16; omega)
                hno' hyes'
                (by show min (k' + 1) ((index + 16 - (c.start + 1) % 16) % 16) ≤ fuel; omega)]
          rw [Prod.mk.injEq]
          constructor
          · rw [hw]
            rw [show min (k' + 1 + 1) ((index + 16 - c.start) % 16)
                  = (min (k' + 1) ((index + 16 - (c.start + 1) % 16) % 16)) + 1 by omega,
                List.take_succ_cons]
            rw [show size - data.length = (size - (data.length + 1)) + 1 by omega,
                List.take_succ_cons]
            simp only [List.length_append, List.length_singleton, List.append_assoc,
              List.cons_append, List.nil_append]
          · simp only [List.length_append, List.length_singleton, cbuffer_t.mk.injEq]
            refine ⟨trivial, trivial, by omega, trivial, trivial, by omega, trivial⟩
        · have hsz0 : size - data.length = 0 := by omega
          have hb1' : (bcpy c data size).1 = data := by
            rw [hb1, hsz0]
            simp
          rw [hb1', hb2]
          rw [ih { c with start := (c.start + 1) % 16, len := c.len - 1 } data k' htop
                (by show (c.start + 1) % 16 < 16; omega) hidx
                (by show c.len - 1 = (index + 16 - (c.start + 1) % 16) % 16; omega)
                (by show k' ≤ (index + 16 - (c.start + 1) % 16) % 16; omega)
                hno' hyes'
                (by show min (k' + 1) ((index + 16 - (c.start + 1) % 16) % 16) ≤ fuel; omega)]
          rw [Prod.mk.injEq]
          constructor
          · simp [hsz0]
          · simp only [cbuffer_t.mk.injEq]
            refine ⟨trivial, trivial, by omega, trivial, trivial, by omega, trivial⟩
    · rw [if_neg hne]
      have hd0 : (index + 16 - c.start) % 16 = 0 := by omega
      rw [hd0]
      simp [window_zero, Nat.mod_eq_of_lt hs]

theorem getD_set_self (l : List Nat) (n a : Nat) (h : n < l.length) :
    (l.set n a).getD n 0 = a := by
  rw [List.getD_eq_getElem?_getD, List.getElem?_set_eq_of_lt a h, Option.getD_some]

theorem getD_set_ne (l : List Nat) (n m a : Nat) (h : n ≠ m) :
    (l.set n a).getD m 0 = l.getD m 0 := by
  rw [List.getD_eq_getElem?_getD, List.getElem?_set_ne h, ← List.getD_eq_getElem?_getD]

theorem window_set_out (buf : List Nat) (b : Nat) (d : Nat) :
    ∀ s, d < 16 →
      window (buf.set ((s + d) % 16) b) s d = window buf s d := by
  induction d with
  | zero => intro s _; rfl
  | succ d ih =>
    intro s hd
    rw [window_succ, window_succ]
    congr 1
    · exact getD_set_ne buf ((s + (d + 1)) % 16) (s % 16) b (by omega)
    · rw [show (s + (d + 1)) % 16 = (s + 1 + d) % 16 by omega]
      exact ih (s + 1) (by omega)

theorem window_set_last (buf : List Nat) (b : Nat) (hbuf : buf.length = 16) (d : Nat) :
    ∀ s, d < 16 →
      window (buf.set ((s + d) % 16) b) s (d + 1) = window buf s d ++ [b] := by
  induction d with
  | zero =>
    intro s _
    rw [window_succ, window_zero, window_zero]
    rw [show (s + 0) % 16 = s % 16 by omega]
    rw [getD_set_self buf (s % 16) b (by omega)]
    rfl
  | succ d ih =>
    intro s hd
    rw [window_succ (buf.set ((s + (d + 1)) % 16) b) s (d + 1), window_succ buf s d,
        List.cons_append]
    congr 1
    · exact getD_set_ne buf ((s + (d + 1)) % 16) (s % 16) b (by omega)
    · rw [show (s + (d + 1)) % 16 = (s + 1 + d) % 16 by omega]
      exact ih (s + 1) (by omega)

theorem cbuffer_push_spec (c : cbuffer_t) (b : Nat)
    (hinv : Inv c) (hnov : c.overflow = false) :
    cbuffer_push c b =
      (true, { c with buffer := c.buffer.set c.idx b, idx := (c.idx + 1) % 16,
                      len := c.len + 1, overflow := decide (c.len = 15) }) := by
  obtain ⟨hsize, htop, hbuf, hidx, hstart, hover, hnover⟩ := hinv
  have hlen := hnover hnov
  unfold cbuffer_push
  rw [if_neg (by simp [hnov])]
  simp only [Prod.mk.injEq, cbuffer_t.mk.injEq]
  refine ⟨trivial, trivial, ?_, trivial, trivial, trivial, by omega, ?_⟩
  · rw [htop]
    split <;> omega
  · split_ifs with h0
    · rw [Bool.eq_iff_iff]
      simp only [beq_iff_eq, decide_eq_true_eq]
      omega
    · rw [htop, Bool.eq_iff_iff]
      simp only [beq_iff_eq, decide_eq_true_eq]
      omega

theorem length_backlog (c : cbuffer_t) : (backlog c).length = c.len :=
  length_window c.buffer c.len c.start

theorem cbuffer_pop_spec (c : cbuffer_t) (size : Nat)
    (hinv : Inv c) (hsz : 1 ≤ size) :
    cbuffer_pop c size =
      ((backlog c).take size,
       { c with start := (c.start + min c.len size) % 16,
                len := c.len - min c.len size, overflow := false }) := by
  obtain ⟨hsize, htop, hbuf, hidx, hstart, hover, hnover⟩ := hinv
  unfold cbuffer_pop
  by_cases hl0 : c.len = 0
  · rw [if_neg (by omega)]
    have hnov : c.overflow = false := by
      by_contra h
      have := hover (by revert h; cases c.overflow <;> simp)
      omega
    rw [Prod.mk.injEq]
    constructor
    · unfold backlog
      rw [hl0, window_zero]
      simp
    · rw [show (c.start + min c.len size) % 16 = c.start by omega,
          show c.len - min c.len size = c.len by omega, ← hnov]
  · rw [if_pos (by omega : c.len ≠ 0)]
    by_cases hov : c.overflow = true
    · obtain ⟨hie, hl16⟩ := hover hov
      rw [if_pos hov]
      unfold_let
      rw [bcpy_fst, bcpy_snd c [] size htop hstart (by omega) (by omega)]
      simp only [List.length_nil, Nat.sub_zero, List.nil_append]
      have htk : [c.buffer.getD c.start 0].take size = [c.buffer.getD c.start 0] := by
        rw [show size = (size - 1) + 1 by omega, List.take_succ_cons]
        simp
      rw [htk]
      rw [popLoop_spec c.idx size size
            { c with start := (c.start + 1) % 16, len := c.len - 1 }
            [c.buffer.getD c.start 0]
            htop (by show (c.start + 1) % 16 < 16; omega) hidx
            (by show c.len - 1 = (c.idx + 16 - (c.start + 1) % 16) % 16; omega)
            (by show min ((c.idx + 16 - (c.start + 1) % 16) % 16)
                  (size - [c.buffer.getD c.start 0].length) ≤ size
                simp only [List.length_singleton]
                omega)]
      rw [Prod.mk.injEq]
      constructor
      · simp only [List.length_singleton]
        unfold backlog
        rw [show c.len = 15 + 1 by omega, window_succ,
            Nat.mod_eq_of_lt hstart,
            window_mod c.buffer 15 (c.start + 1) ((c.start + 1) % 16) (by omega),
            show (c.idx + 16 - (c.start + 1) % 16) % 16 = 15 by omega,
            show size = (size - 1) + 1 by omega, List.take_succ_cons]
        simp
      · simp only [List.length_singleton, cbuffer_t.mk.injEq]
        refine ⟨trivial, trivial, by omega, trivial, trivial, by omega, trivial⟩
    · have hnov : c.overflow = false := by revert hov; cases c.overflow <;> simp
      have hlen := hnover hnov
      rw [if_neg (by rw [hnov]; simp)]
      unfold_let
      rw [popLoop_spec c.idx size size c [] htop hstart hidx hlen
            (by show min ((c.idx + 16 - c.start) % 16) (size - List.length []) ≤ size
                simp only [List.length_nil]
                omega)]
      simp only [List.length_nil, Nat.sub_zero, List.nil_append]
      rw [Prod.mk.injEq]
      constructor
      · unfold backlog
        rw [hlen]
      · simp only [cbuffer_t.mk.injEq]
        refine ⟨trivial, trivial, by omega, trivial, trivial, by omega, trivial⟩

theorem backlog_cons (c : cbuffer_t) (hstart : c.start < 16) (hl : 1 ≤ c.len) :
    backlog c = c.buffer.getD c.start 0 ::
      window c.buffer ((c.start + 1) % 16) (c.len - 1) := by
  unfold backlog
  rw [show c.len = (c.len - 1) + 1 by omega, window_succ, Nat.mod_eq_of_lt hstart,
      window_mod c.buffer (c.len - 1) (c.start + 1) ((c.start + 1) % 16) (by omega)]
  simp

theorem cbuffer_popm_spec (c : cbuffer_t) (size eom k : Nat) (hinv : Inv c)
    (hk : k ≤ c.len)
    (hno : ∀ i, i < k → (backlog c).getD i 0 ≠ eom)
    (hyes : k < c.len → (backlog c).getD k 0 = eom) :
    cbuffer_popm c size eom =
      (((backlog c).take (min (k + 1) c.len)).take size,
       { c with start := (c.start + min (k + 1) c.len) % 16,
                len := c.len - min (k + 1) c.len, overflow := false }) := by
  obtain ⟨hsize, htop, hbuf, hidx, hstart, hover, hnover⟩ := hinv
  unfold cbuffer_popm
  by_cases hl0 : c.len = 0
  · rw [if_neg (by omega)]
    have hnov : c.overflow = false := by
      by_contra h
      have := hover (by revert h; cases c.overflow <;> simp)
      omega
    rw [Prod.mk.injEq]
    constructor
    · unfold backlog
      rw [hl0, window_zero]
      simp
    · rw [show (c.start + min (k + 1) c.len) % 16 = c.start by omega,
          show c.len - min (k + 1) c.len = c.len by omega, ← hnov]
  · rw [if_pos (by omega : c.len ≠ 0)]
    unfold_let
    by_cases hov : c.overflow = true
    · obtain ⟨hie, hl16⟩ := hover hov
      rw [if_pos hov]
      have hbc := backlog_cons c hstart (by omega)
      rw [bcpy_fst, bcpy_snd c [] size htop hstart (by omega) (by omega)]
      simp only [List.length_nil, Nat.sub_zero, List.nil_append]
      cases k with
      | zero =>
        have heom : c.buffer.getD c.start 0 = eom := by
          have h := hyes (by omega)
          rw [hbc] at h
          simpa using h
        rw [show (c.buffer.getD c.start 0 == eom) = true from beq_iff_eq.mpr heom]
        rw [if_pos rfl]
        rw [Prod.mk.injEq]
        constructor
        · rw [hbc, show min (0 + 1) c.len = 1 by omega]
          rfl
        · simp only [cbuffer_t.mk.injEq]
          refine ⟨trivial, trivial, by omega, trivial, trivial, by omega, trivial⟩
      | succ k' =>
        have hne0 : c.buffer.getD c.start 0 ≠ eom := by
          have h0 := hno 0 (Nat.succ_pos k')
          rw [hbc] at h0
          simpa using h0
        rw [show (c.buffer.getD c.start 0 == eom) = false from beq_eq_false_iff_ne.mpr hne0]
        rw [if_neg (by simp)]
        have hno' : ∀ i, i < k' →
            (window c.buffer ((c.start + 1) % 16)
              ((c.idx + 16 - (c.start + 1) % 16) % 16)).getD i 0 ≠ eom := by
          intro i hi
          have h := hno (i + 1) (by omega)
          rw [hbc] at h
          rw [show (c.idx + 16 - (c.start + 1) % 16) % 16 = c.len - 1 by omega]
          simpa using h
        have hyes' : k' < (c.idx + 16 - (c.start + 1) % 16) % 16 →
            (window c.buffer ((c.start + 1) % 16)
              ((c.idx + 16 - (c.start + 1) % 16) % 16)).getD k' 0 = eom := by
          intro hk'
          have h := hyes (by omega)
          rw [hbc] at h
          rw [show (c.idx + 16 - (c.start + 1) % 16) % 16 = c.len - 1 by omega]
          simpa using h
        rw [show c.TOP + 1 = 16 by omega]
        rw [popmLoop_spec c.idx size eom 16
              { c with start := (c.start + 1) % 16, len := c.len - 1 }
              ([c.buffer.getD c.start 0].take size) k' htop
              (by show (c.start + 1) % 16 < 16; omega) hidx
              (by show c.len - 1 = (c.idx + 16 - (c.start + 1) % 16) % 16; omega)
              (by show k' ≤ (c.idx + 16 - (c.start + 1) % 16) % 16; omega)
              hno' hyes'
              (by show min (k' + 1) ((c.idx + 16 - (c.start + 1) % 16) % 16) ≤ 16; omega)]
        rw [Prod.mk.injEq]
        constructor
        · rw [hbc]
          rw [show (c.idx + 16 - (c.start + 1) % 16) % 16 = c.len - 1 by omega]
          by_cases hsz : 1 ≤ size
          · rw [show [c.buffer.getD c.start 0].take size = [c.buffer.getD c.start 0] by
                  rw [show size = (size - 1) + 1 by omega, List.take_succ_cons]; simp]
            rw [show min (k' + 1 + 1) c.len = min (k' + 1) (c.len - 1) + 1 by omega,
                List.take_succ_cons,
                show size = (size - 1) + 1 by omega, List.take_succ_cons]
            simp only [List.length_singleton, List.cons_append, List.nil_append,
              Nat.add_sub_cancel]
          · rw [show size = 0 by omega]
            simp
        · simp only [List.length_take, List.length_singleton, cbuffer_t.mk.injEq]
          refine ⟨trivial, trivial, by omega, trivial, trivial, by omega, trivial⟩
    · have hnov : c.overflow = false := by revert hov; cases c.overflow <;> simp
      have hlen := hnover hnov
      rw [if_neg (by rw [hnov]; simp)]
      have hno' : ∀ i, i < k →
          (window c.buffer c.start ((c.idx + 16 - c.start) % 16)).getD i 0 ≠ eom := by
        intro i hi
        rw [← hlen]
        exact hno i hi
      have hyes' : k < (c.idx + 16 - c.start) % 16 →
          (window c.buffer c.start ((c.idx + 16 - c.start) % 16)).getD k 0 = eom := by
        intro h
        rw [← hlen]
        exact hyes (by omega)
      rw [show c.TOP + 1 = 16 by omega]
      rw [popmLoop_spec c.idx size eom 16 c [] k htop hstart hidx hlen (by omega)
            hno' hyes'
            (by show min (k + 1) ((c.idx + 16 - c.start) % 16) ≤ 16; omega)]
      simp only [List.length_nil, Nat.sub_zero, List.nil_append]
      rw [Prod.mk.injEq]
      constructor
      · unfold backlog
        rw [hlen]
      · simp only [cbuffer_t.mk.injEq]
        refine ⟨trivial, trivial, by omega, trivial, trivial, by omega, trivial⟩

theorem Inv_init : Inv cbuffer_init := by
  refine ⟨rfl, rfl, by simp [cbuffer_init, cbuffer_clear, CBUF_SIZE], by decide, by decide,
    by decide, fun _ => by decide⟩

theorem Inv_clear (c : cbuffer_t) (hinv : Inv c) : Inv (cbuffer_clear c) := by
  obtain ⟨hsize, htop, hbuf, _, _, _, _⟩ := hinv
  refine ⟨hsize, htop, hbuf, ?_, ?_, ?_, ?_⟩
  · show (0 : Nat) < 16
    decide
  · show (0 : Nat) < 16
    decide
  · intro h
    exact Bool.noConfusion h
  · intro _
    show (0 : Nat) = (0 + 16 - 0) % 16
    decide

theorem cbuffer_push_full (c : cbuffer_t) (b : Nat) (h : c.overflow = true) :
    cbuffer_push c b = (false, c) := by
  simp [cbuffer_push, h]

theorem Inv_push (c : cbuffer_t) (b : Nat) (hinv : Inv c) :
    Inv (cbuffer_push c b).2 := by
  by_cases hov : c.overflow = true
  · rw [cbuffer_push_full c b hov]
    exact hinv
  · have hnov : c.overflow = false := by revert hov; cases c.overflow <;> simp
    obtain ⟨hsize, htop, hbuf, hidx, hstart, hover, hnover⟩ := hinv
    have hlen := hnover hnov
    rw [cbuffer_push_spec c b ⟨hsize, htop, hbuf, hidx, hstart, hover, hnover⟩ hnov]
    refine ⟨hsize, htop, by simpa using hbuf, by show (c.idx + 1) % 16 < 16; omega, hstart,
      ?_, ?_⟩
    · intro h
      simp only [decide_eq_true_eq] at h
      constructor
      · show (c.idx + 1) % 16 = c.start
        omega
      · show c.len + 1 = 16
        omega
    · intro h
      simp only [decide_eq_false_iff_not] at h
      show c.len + 1 = ((c.idx + 1) % 16 + 16 - c.start) % 16
      omega

theorem Inv_pop (c : cbuffer_t) (size : Nat) (hinv : Inv c) :
    Inv (cbuffer_pop c size).2 := by
  obtain ⟨hsize, htop, hbuf, hidx, hstart, hover, hnover⟩ := hinv
  by_cases hsz : 1 ≤ size
  · rw [cbuffer_pop_spec c size ⟨hsize, htop, hbuf, hidx, hstart, hover, hnover⟩ hsz]
    refine ⟨hsize, htop, hbuf, hidx, by show (c.start + min c.len size) % 16 < 16; omega,
      by simp, ?_⟩
    intro _
    show c.len - min c.len size = (c.idx + 16 - (c.start + min c.len size) % 16) % 16
    by_cases hov : c.overflow = true
    · obtain ⟨hie, hl16⟩ := hover hov
      omega
    · have hlen := hnover (by revert hov; cases c.overflow <;> simp)
      have hl15 : c.len ≤ 15 := by omega
      omega
  · have hsz0 : size = 0 := by omega
    subst hsz0
    unfold cbuffer_pop
    by_cases hl0 : c.len = 0
    · rw [if_neg (by omega)]
      exact ⟨hsize, htop, hbuf, hidx, hstart, hover, hnover⟩
    · rw [if_pos (by omega : c.len ≠ 0)]
      unfold_let
      by_cases hov : c.overflow = true
      · obtain ⟨hie, hl16⟩ := hover hov
        rw [if_pos hov]
        rw [bcpy_snd c [] 0 htop hstart (by omega) (by omega)]
        rw [popLoop]
        refine ⟨hsize, htop, hbuf, hidx, by show (c.start + 1) % 16 < 16; omega, ?_, ?_⟩
        · intro h
          exact Bool.noConfusion h
        · intro _
          show c.len - 1 = (c.idx + 16 - (c.start + 1) % 16) % 16
          omega
      · rw [if_neg hov]
        rw [popLoop]
        have hlen := hnover (by revert hov; cases c.overflow <;> simp)
        refine ⟨hsize, htop, hbuf, hidx, hstart, ?_, fun _ => hlen⟩
        intro h
        exact Bool.noConfusion h

theorem Inv_popm (c : cbuffer_t) (size eom : Nat) (hinv : Inv c) :
    Inv (cbuffer_popm c size eom).2 := by
  obtain ⟨hsize, htop, hbuf, hidx, hstart, hover, hnover⟩ := hinv
  unfold cbuffer_popm
  by_cases hl0 : c.len = 0
  · rw [if_neg (by omega)]
    exact ⟨hsize, htop, hbuf, hidx, hstart, hover, hnover⟩
  · rw [if_pos (by omega : c.len ≠ 0)]
    unfold_let
    by_cases hov : c.overflow = true
    · obtain ⟨hie, hl16⟩ := hover hov
      rw [if_pos hov]
      rw [bcpy_snd c [] size htop hstart (by omega) (by omega)]
      by_cases hstop : (c.buffer.getD c.start 0 == eom) = true
      · rw [hstop, if_pos rfl]
        refine ⟨hsize, htop, hbuf, hidx, by show (c.start + 1) % 16 < 16; omega, by simp, ?_⟩
        intro _
        show c.len - 1 = (c.idx + 16 - (c.start + 1) % 16) % 16
        omega
      · have hsf : (c.buffer.getD c.start 0 == eom) = false := by
          revert hstop
          cases (c.buffer.getD c.start 0 == eom) <;> simp
        rw [hsf, if_neg (by simp)]
        obtain ⟨n, hn, heq⟩ := popmLoop_pres c.idx size eom (c.TOP + 1)
          { c with start := (c.start + 1) % 16, len := c.len - 1 }
          (bcpy c [] size).1 htop (by show (c.start + 1) % 16 < 16; omega) hidx
          (by show c.len - 1 = (c.idx + 16 - (c.start + 1) % 16) % 16; omega)
        rw [show ({ c with start := (c.start + 1) % 16, len := c.len - 1 } : cbuffer_t).start
              = (c.start + 1) % 16 from rfl] at hn heq
        rw [heq]
        refine ⟨hsize, htop, hbuf, hidx,
          by show ((c.start + 1) % 16 + n) % 16 < 16; omega, by simp, ?_⟩
        intro _
        show c.len - 1 - n = (c.idx + 16 - ((c.start + 1) % 16 + n) % 16) % 16
        omega
    · rw [if_neg hov]
      have hlen := hnover (by revert hov; cases c.overflow <;> simp)
      obtain ⟨n, hn, heq⟩ := popmLoop_pres c.idx size eom (c.TOP + 1) c [] htop hstart hidx hlen
      rw [heq]
      refine ⟨hsize, htop, hbuf, hidx, by show (c.start + n) % 16 < 16; omega, by simp, ?_⟩
      intro _
      show c.len - n = (c.idx + 16 - (c.start + n) % 16) % 16
      omega

theorem Reachable_Inv (c : cbuffer_t) (h : Reachable c) : Inv c := by
  induction h with
  | init => exact Inv_init
  | push b hr ih => exact Inv_push _ b ih
  | pop size hr ih => exact Inv_pop _ size ih
  | popm size eom hr ih => exact Inv_popm _ size eom ih
  | clear hr ih => exact Inv_clear _ ih

theorem getD_take (l : List Nat) (n i : Nat) (h : i < n) :
    (l.take n).getD i 0 = l.getD i 0 := by
  rw [List.getD_eq_getElem?_getD, List.getElem?_take_of_lt h, ← List.getD_eq_getElem?_getD]

theorem window_drop (buf : List Nat) (m : Nat) : ∀ s d, m ≤ d →
    (window buf s d).drop m = window buf (s + m) (d - m) := by
  induction m with
  | zero => intro s d _; simp
  | succ m ih =>
    intro s d hm
    obtain ⟨d', rfl⟩ : ∃ d', d = d' + 1 := ⟨d - 1, by omega⟩
    rw [window_succ, List.drop_succ_cons, ih (s + 1) d' (by omega),
        show s + (m + 1) = s + 1 + m by omega, show d' + 1 - (m + 1) = d' - m by omega]

theorem cbuffer_push_ok (c : cbuffer_t) (b : Nat) (hinv : Inv c) (hnov : c.overflow = false) :
    (cbuffer_push c b).1 = true ∧
    backlog (cbuffer_push c b).2 = backlog c ++ [b] ∧
    (cbuffer_push c b).2.len = c.len + 1 ∧
    (cbuffer_push c b).2.overflow = decide (c.len + 1 = 16) := by
  obtain ⟨hsize, htop, hbuf, hidx, hstart, hover, hnover⟩ := hinv
  have hlen := hnover hnov
  rw [cbuffer_push_spec c b ⟨hsize, htop, hbuf, hidx, hstart, hover, hnover⟩ hnov]
  refine ⟨rfl, ?_, rfl, ?_⟩
  · show window (c.buffer.set c.idx b) c.start (c.len + 1)
      = window c.buffer c.start c.len ++ [b]
    rw [show c.idx = (c.start + c.len) % 16 by omega]
    exact window_set_last c.buffer b hbuf c.len c.start (by omega)
  · show decide (c.len = 15) = decide (c.len + 1 = 16)
    simp only [decide_eq_decide]
    omega

theorem pushAll_ok (l : List Nat) : ∀ c : cbuffer_t, Inv c → c.overflow = false →
    c.len + l.length ≤ 16 →
    (pushAll c l).1 = List.replicate l.length true ∧
    Inv (pushAll c l).2 ∧
    backlog (pushAll c l).2 = backlog c ++ l ∧
    (pushAll c l).2.len = c.len + l.length ∧
    (pushAll c l).2.overflow = decide (c.len + l.length = 16) := by
  induction l with
  | nil =>
    intro c hinv hnov _
    have hlen := hinv.hnover hnov
    refine ⟨rfl, hinv, by simp [pushAll], rfl, ?_⟩
    show c.overflow = decide (c.len + List.length [] = 16)
    rw [hnov]
    symm
    rw [decide_eq_false_iff_not]
    simp only [List.length_nil]
    omega
  | cons b rest ih =>
    intro c hinv hnov hle
    simp only [List.length_cons] at hle
    obtain ⟨h1, h2, h3, h4⟩ := cbuffer_push_ok c b hinv hnov
    cases rest with
    | nil =>
      refine ⟨?_, Inv_push c b hinv, h2, h3, h4⟩
      show (cbuffer_push c b).1 :: [] = List.replicate [b].length true
      rw [h1]
      rfl
    | cons b2 rest2 =>
      have hnov1 : (cbuffer_push c b).2.overflow = false := by
        rw [h4, decide_eq_false_iff_not]
        simp only [List.length_cons] at hle ⊢
        omega
      obtain ⟨g1, g2, g3, g4, g5⟩ := ih (cbuffer_push c b).2 (Inv_push c b hinv) hnov1
        (by rw [h3]; simp only [List.length_cons] at hle ⊢; omega)
      refine ⟨?_, g2, ?_, ?_, ?_⟩
      · show (cbuffer_push c b).1 :: (pushAll (cbuffer_push c b).2 (b2 :: rest2)).1
          = List.replicate (b :: b2 :: rest2).length true
        rw [h1, g1]
        simp [List.replicate_succ]
      · show backlog (pushAll (cbuffer_push c b).2 (b2 :: rest2)).2
          = backlog c ++ (b :: b2 :: rest2)
        rw [g3, h2]
        simp
      · show (pushAll (cbuffer_push c b).2 (b2 :: rest2)).2.len
          = c.len + (b :: b2 :: rest2).length
        rw [g4, h3]
        simp only [List.length_cons]
        omega
      · show (pushAll (cbuffer_push c b).2 (b2 :: rest2)).2.overflow
          = decide (c.len + (b :: b2 :: rest2).length = 16)
        rw [g5, h3]
        simp only [List.length_cons, decide_eq_decide]
        omega

theorem pushAll_cons (c : cbuffer_t) (b : Nat) (t : List Nat) :
    pushAll c (b :: t) =
      ((cbuffer_push c b).1 :: (pushAll (cbuffer_push c b).2 t).1,
       (pushAll (cbuffer_push c b).2 t).2) := rfl

theorem pushAll_append (l1 l2 : List Nat) : ∀ c : cbuffer_t,
    pushAll c (l1 ++ l2) =
      ((pushAll c l1).1 ++ (pushAll (pushAll c l1).2 l2).1,
       (pushAll (pushAll c l1).2 l2).2) := by
  induction l1 with
  | nil => intro c; rfl
  | cons b rest ih =>
    intro c
    rw [List.cons_append, pushAll_cons, ih (cbuffer_push c b).2, pushAll_cons]
    rfl

theorem backlog_init : backlog cbuffer_init = [] := rfl

/-- Claim C1: up to 16 pushed bytes are returned by `cbuffer_pop` in FIFO order and
unchanged; once the buffer holds 16 bytes a further push is rejected and the
original 16 bytes are still returned intact. -/
theorem push_drain_fidelity (l : List Nat) (b size : Nat) (hsize : 16 ≤ size) :
    (l.length ≤ 16 →
      (pushAll cbuffer_init l).1 = List.replicate l.length true ∧
      (cbuffer_pop (pushAll cbuffer_init l).2 size).1 = l) ∧
    (l.length = 16 →
      (pushAll cbuffer_init (l ++ [b])).1 = List.replicate 16 true ++ [false] ∧
      (pushAll cbuffer_init (l ++ [b])).2.overflow = true ∧
      (cbuffer_pop (pushAll cbuffer_init (l ++ [b])).2 size).1 = l) := by
  have hi0 : cbuffer_init.len = 0 := rfl
  constructor
  · intro hlen
    obtain ⟨h1, h2, h3, h4, h5⟩ := pushAll_ok l cbuffer_init Inv_init rfl (by omega)
    refine ⟨h1, ?_⟩
    rw [cbuffer_pop_spec _ size h2 (by omega)]
    rw [h3, backlog_init, List.nil_append]
    show l.take size = l
    apply List.take_of_length_le
    omega
  · intro hlen
    obtain ⟨h1, h2, h3, h4, h5⟩ := pushAll_ok l cbuffer_init Inv_init rfl (by omega)
    have hov : (pushAll cbuffer_init l).2.overflow = true := by
      rw [h5, decide_eq_true_eq]
      omega
    have happ := pushAll_append l [b] cbuffer_init
    have hrej : pushAll (pushAll cbuffer_init l).2 [b]
        = ([false], (pushAll cbuffer_init l).2) := by
      rw [pushAll_cons, cbuffer_push_full _ b hov]
      rfl
    rw [happ, hrej]
    refine ⟨?_, hov, ?_⟩
    · rw [h1, hlen]
    · show (cbuffer_pop (pushAll cbuffer_init l).2 size).1 = l
      rw [cbuffer_pop_spec _ size h2 (by omega)]
      rw [h3, backlog_init, List.nil_append]
      show l.take size = l
      apply List.take_of_length_le
      omega

/-- Claim C9: in every reachable buffer state, when `overflow` is clear the stored
byte count equals `(idx + 16 - start) % 16`, and when `overflow` is set the
cursors coincide and the count is 16. -/
theorem ring_buffer_invariant (c : cbuffer_t) (h : Reachable c) :
    (c.overflow = false → c.len = (c.idx + 16 - c.start) % 16) ∧
    (c.overflow = true → c.idx = c.start ∧ c.len = 16) :=
  ⟨(Reachable_Inv c h).hnover, (Reachable_Inv c h).hover⟩

theorem ring_buffer_invariant_witness :
    cbuffer_init.len = (cbuffer_init.idx + 16 - cbuffer_init.start) % 16 :=
  (ring_buffer_invariant cbuffer_init Reachable.init).1 rfl

/-- Claim C6: when the backlog contains the terminator `eom` within the requested
size, `cbuffer_popm` returns exactly the bytes up to and including the first
occurrence, and the bytes after it stay in the buffer. -/
theorem popm_terminator (c : cbuffer_t) (size eom k : Nat) (hinv : Inv c)
    (hk : k < c.len)
    (hno : ∀ i, i < k → (backlog c).getD i 0 ≠ eom)
    (hyes : (backlog c).getD k 0 = eom)
    (hsize : k + 1 ≤ size) :
    (cbuffer_popm c size eom).1 = (backlog c).take (k + 1) ∧
    (cbuffer_popm c size eom).1.length = k + 1 ∧
    (cbuffer_popm c size eom).1.getD k 0 = eom ∧
    backlog (cbuffer_popm c size eom).2 = (backlog c).drop (k + 1) ∧
    (cbuffer_pop (cbuffer_popm c size eom).2 16).1 = (backlog c).drop (k + 1) := by
  have hlen16 : c.len ≤ 16 := by
    obtain ⟨hsize', htop, hbuf, hidx, hstart, hover, hnover⟩ := hinv
    by_cases hov : c.overflow = true
    · exact (hover hov).2.le
    · have := hnover (by revert hov; cases c.overflow <;> simp)
      omega
  have hms := cbuffer_popm_spec c size eom k hinv (by omega) hno (fun _ => hyes)
  have hmin : min (k + 1) c.len = k + 1 := by omega
  rw [hmin] at hms
  have hbl : (backlog c).length = c.len := length_backlog c
  have hcontent : (cbuffer_popm c size eom).1 = (backlog c).take (k + 1) := by
    rw [hms]
    show ((backlog c).take (k + 1)).take size = (backlog c).take (k + 1)
    apply List.take_of_length_le
    rw [List.length_take]
    omega
  have hstate : backlog (cbuffer_popm c size eom).2 = (backlog c).drop (k + 1) := by
    rw [hms]
    show window c.buffer ((c.start + (k + 1)) % 16) (c.len - (k + 1))
      = (backlog c).drop (k + 1)
    unfold backlog
    rw [window_drop c.buffer (k + 1) c.start c.len (by omega)]
    exact window_mod c.buffer (c.len - (k + 1)) ((c.start + (k + 1)) % 16)
      (c.start + (k + 1)) (by omega)
  refine ⟨hcontent, ?_, ?_, hstate, ?_⟩
  · rw [hcontent, List.length_take]
    omega
  · rw [hcontent, getD_take (backlog c) (k + 1) k (by omega)]
    exact hyes
  · have hinv' := Inv_popm c size eom hinv
    rw [cbuffer_pop_spec _ 16 hinv' (by omega)]
    show (backlog (cbuffer_popm c size eom).2).take 16 = (backlog c).drop (k + 1)
    rw [hstate]
    apply List.take_of_length_le
    rw [List.length_drop]
    omega

/-- Claim C5 (amended): when the terminator never occurs, `cbuffer_popm` returns at
most `size` bytes but drains the whole buffer, so bytes beyond `size` are lost
rather than left for a later read. -/
theorem popm_no_terminator (c : cbuffer_t) (size eom : Nat) (hinv : Inv c)
    (hno : ∀ i, i < c.len → (backlog c).getD i 0 ≠ eom) :
    (cbuffer_popm c size eom).1 = (backlog c).take size ∧
    (cbuffer_popm c size eom).1.length = min c.len size ∧
    (cbuffer_popm c size eom).2.len = 0 ∧
    (cbuffer_pop (cbuffer_popm c size eom).2 16).1 = [] := by
  have hms := cbuffer_popm_spec c size eom c.len hinv (le_refl _) hno
    (fun h => absurd h (lt_irrefl _))
  have hmin : min (c.len + 1) c.len = c.len := by omega
  rw [hmin] at hms
  have hbl : (backlog c).length = c.len := length_backlog c
  have htk : (backlog c).take c.len = backlog c := by
    apply List.take_of_length_le
    omega
  rw [htk] at hms
  have hlen0 : (cbuffer_popm c size eom).2.len = 0 := by
    rw [hms]
    show c.len - c.len = 0
    omega
  refine ⟨by rw [hms], ?_, hlen0, ?_⟩
  · rw [hms]
    show ((backlog c).take size).length = min c.len size
    rw [List.length_take]
    omega
  · unfold cbuffer_pop
    rw [if_neg (by omega)]

set_option maxRecDepth 8000

/-- Claim C4 (counterexample): a boot response with a non-zero status word (0x0500)
does not halt the bring-up sequence; `rfid_resume` proceeds to transmit the set
region command 0x97. -/
theorem bring_up_status_not_halting :
    (send_cmd { rfid0 with data := List.replicate 255 0, len := 0, opcode := 0x04 }
        (frame0 0x04 0x0500 49476)).2.2.1.error = 0 ∧
    (send_cmd { rfid0 with data := List.replicate 255 0, len := 0, opcode := 0x04 }
        (frame0 0x04 0x0500 49476)).2.2.1.status = 0x0500 ∧
    frame_opcodes (rfid_resume rfid0 (frame0 0x04 0x0500 49476) false 0 0).2.1
      = [0x04, 0x97] := by decide

/-- Claim C4 (amended): each step of `rfid_resume` is gated on the recorded stage
error, not on the status word: a non-zero stage error after boot halts the
sequence after the single boot frame, a zero stage error lets it proceed
regardless of status, and an error-free run transmits 0x04, 0x97, 0x93, 0x98,
optionally 0x92, 0x9a in order. -/
theorem bring_up_gating (r : rfid_t) (s : List (Option Nat)) (lowtx : Bool) (txh txl : Nat)
    (p1 : Bool × List Nat × rfid_t × List (Option Nat))
    (hp1 : p1 = send_cmd { r with data := List.replicate 255 0, len := 0, opcode := 0x04 } s)
    (r1 : rfid_t)
    (hr1 : r1 = if p1.2.2.1.error ≠ 0 ∧ p1.2.2.1.status = 0x0101
                then { p1.2.2.1 with error := 0 } else p1.2.2.1)
    (q2 q3 q4 q5 q6 : List (List Nat) × rfid_t × List (Option Nat))
    (hq2 : q2 = guarded_cmd r1 p1.2.2.2
      (fun r => { r with len := 0x01, opcode := 0x97, data := r.data.set 0 0x02 }))
    (hq3 : q3 = guarded_cmd q2.2.1 q2.2.2
      (fun r => { r with len := 0x02, opcode := 0x93, data := (r.data.set 0 0x00).set 1 0x05 }))
    (hq4 : q4 = guarded_cmd q3.2.1 q3.2.2
      (fun r => { r with len := 0x01, opcode := 0x98, data := r.data.set 0 0x03 }))
    (hq5 : q5 = if lowtx then
        guarded_cmd q4.2.1 q4.2.2
          (fun r => { r with len := 0x02, opcode := 0x92, data := (r.data.set 0 txh).set 1 txl })
      else ([], q4.2.1, q4.2.2))
    (hq6 : q6 = guarded_cmd q5.2.1 q5.2.2
      (fun r => { r with len := 0x03, opcode := 0x9a,
                         data := ((r.data.set 0 0x01).set 1 0x02).set 2 0x01 }))
    (p2 p3 p4 p5 p6 : Bool × List Nat × rfid_t × List (Option Nat))
    (hp2 : p2 = send_cmd { r1 with len := 0x01, opcode := 0x97, data := r1.data.set 0 0x02 }
      p1.2.2.2)
    (hp3 : p3 = send_cmd { p2.2.2.1 with
                           len := 0x02, opcode := 0x93,
                           data := (p2.2.2.1.data.set 0 0x00).set 1 0x05 } p2.2.2.2)
    (hp4 : p4 = send_cmd { p3.2.2.1 with
                           len := 0x01, opcode := 0x98,
                           data := p3.2.2.1.data.set 0 0x03 } p3.2.2.2)
    (hp5 : p5 = if lowtx then
        send_cmd { p4.2.2.1 with
                   len := 0x02, opcode := 0x92,
                   data := (p4.2.2.1.data.set 0 txh).set 1 txl } p4.2.2.2
      else p4)
    (hp6 : p6 = send_cmd { p5.2.2.1 with
                           len := 0x03, opcode := 0x9a,
                           data := ((p5.2.2.1.data.set 0 0x01).set 1 0x02).set 2 0x01 }
      p5.2.2.2) :
    (r1.error ≠ 0 →
      (rfid_resume r s lowtx txh txl).1 = r1.error ∧
      frame_opcodes (rfid_resume r s lowtx txh txl).2.1 = [0x04]) ∧
    (r1.error = 0 →
      (frame_opcodes (rfid_resume r s lowtx txh txl).2.1).take 2 = [0x04, 0x97]) ∧
    (r1.error = 0 → p2.2.2.1.error = 0 → p3.2.2.1.error = 0 → p4.2.2.1.error = 0 →
     p5.2.2.1.error = 0 →
      frame_opcodes (rfid_resume r s lowtx txh txl).2.1
        = [0x04, 0x97, 0x93, 0x98] ++ (if lowtx then [0x92] else []) ++ [0x9a] ∧
      (rfid_resume r s lowtx txh txl).1 = p6.2.2.1.error) := by
  have hre : rfid_resume r s lowtx txh txl
      = (q6.2.1.error, p1.2.1 :: (q2.1 ++ q3.1 ++ q4.1 ++ q5.1 ++ q6.1), q6.2.1, q6.2.2) := by
    subst hq6 hq5 hq4 hq3 hq2 hr1 hp1
    rfl
  have hf1 : p1.2.1[2]?.getD 0 = 0x04 := by
    rw [hp1]
    show ((tx_pkt _)[2]?).getD 0 = 0x04
    rfl
  rw [hre]
  refine ⟨?_, ?_, ?_⟩
  · intro he
    have hskip : ∀ (s' : List (Option Nat)) (prep : rfid_t → rfid_t),
        guarded_cmd r1 s' prep = ([], r1, s') := by
      intro s' prep
      unfold guarded_cmd
      rw [if_neg he]
    subst hq2 hq3 hq4 hq5 hq6
    cases lowtx <;>
      simp [hskip, frame_opcodes, hf1]
  · intro he
    have hgo : ∀ (s' : List (Option Nat)) (prep : rfid_t → rfid_t),
        guarded_cmd r1 s' prep
          = ([(send_cmd (prep r1) s').2.1], (send_cmd (prep r1) s').2.2.1,
             (send_cmd (prep r1) s').2.2.2) := by
      intro s' prep
      unfold guarded_cmd
      rw [if_pos he]
    subst hq2
    rw [hgo]
    simp [frame_opcodes, hf1, send_cmd, tx_pkt]
  · intro he1 he2 he3 he4 he5
    have hf2 : p2.2.1[2]?.getD 0 = 0x97 := by
      rw [hp2]
      show ((tx_pkt _)[2]?).getD 0 = 0x97
      rfl
    have hf3 : p3.2.1[2]?.getD 0 = 0x93 := by
      rw [hp3]
      show ((tx_pkt _)[2]?).getD 0 = 0x93
      rfl
    have hf4 : p4.2.1[2]?.getD 0 = 0x98 := by
      rw [hp4]
      show ((tx_pkt _)[2]?).getD 0 = 0x98
      rfl
    have e2 : q2 = ([p2.2.1], p2.2.2.1, p2.2.2.2) := by
      rw [hq2]
      unfold guarded_cmd
      rw [if_pos he1, hp2]
    have e3 : q3 = ([p3.2.1], p3.2.2.1, p3.2.2.2) := by
      rw [hq3, e2]
      dsimp only
      unfold guarded_cmd
      rw [if_pos he2, hp3]
    have e4 : q4 = ([p4.2.1], p4.2.2.1, p4.2.2.2) := by
      rw [hq4, e3]
      dsimp only
      unfold guarded_cmd
      rw [if_pos he3, hp4]
    cases lowtx with
    | false =>
      rw [if_neg Bool.false_ne_true] at hp5
      have e5 : q5 = ([], p4.2.2.1, p4.2.2.2) := by
        rw [hq5, if_neg Bool.false_ne_true, e4]
      have e6 : q6 = ([p6.2.1], p6.2.2.1, p6.2.2.2) := by
        rw [hq6, e5]
        dsimp only
        unfold guarded_cmd
        rw [hp5] at he5
        rw [if_pos he5, hp6, hp5]
      have hf6 : p6.2.1[2]?.getD 0 = 0x9a := by
        rw [hp6]
        show ((tx_pkt _)[2]?).getD 0 = 0x9a
        rfl
      rw [e2, e3, e4, e5, e6]
      refine ⟨?_, rfl⟩
      simp [frame_opcodes, hf1, hf2, hf3, hf4, hf6]
    | true =>
      rw [if_pos rfl] at hp5
      have e5 : q5 = ([p5.2.1], p5.2.2.1, p5.2.2.2) := by
        rw [hq5, if_pos rfl, e4]
        dsimp only
        unfold guarded_cmd
        rw [if_pos he4, hp5]
      have e6 : q6 = ([p6.2.1], p6.2.2.1, p6.2.2.2) := by
        rw [hq6, e5]
        dsimp only
        unfold guarded_cmd
        rw [if_pos he5, hp6]
      have hf5 : p5.2.1[2]?.getD 0 = 0x92 := by
        rw [hp5]
        show ((tx_pkt _)[2]?).getD 0 = 0x92
        rfl
      have hf6 : p6.2.1[2]?.getD 0 = 0x9a := by
        rw [hp6]
        show ((tx_pkt _)[2]?).getD 0 = 0x9a
        rfl
      rw [e2, e3, e4, e5, e6]
      refine ⟨?_, rfl⟩
      simp [frame_opcodes, hf1, hf2, hf3, hf4, hf5, hf6]

theorem push_drain_fidelity_witness :
    (cbuffer_pop (pushAll cbuffer_init
        [1, 2, 3, 4, 5, 6, 7, 8, 9, 10, 11, 12, 13, 14, 15, 16]).2 16).1
      = [1, 2, 3, 4, 5, 6, 7, 8, 9, 10, 11, 12, 13, 14, 15, 16] ∧
    (pushAll cbuffer_init
        ([1, 2, 3, 4, 5, 6, 7, 8, 9, 10, 11, 12, 13, 14, 15, 16] ++ [99])).2.overflow
      = true ∧
    (cbuffer_pop (pushAll cbuffer_init
        ([1, 2, 3, 4, 5, 6, 7, 8, 9, 10, 11, 12, 13, 14, 15, 16] ++ [99])).2 16).1
      = [1, 2, 3, 4, 5, 6, 7, 8, 9, 10, 11, 12, 13, 14, 15, 16] := by
  have h := push_drain_fidelity
    [1, 2, 3, 4, 5, 6, 7, 8, 9, 10, 11, 12, 13, 14, 15, 16] 99 16 (by decide)
  exact ⟨(h.1 (by decide)).2, (h.2 (by decide)).2.1, (h.2 (by decide)).2.2⟩

theorem popm_terminator_witness :
    (cbuffer_popm (pushAll cbuffer_init [1, 7, 3]).2 16 7).1 = [1, 7] ∧
    backlog (cbuffer_popm (pushAll cbuffer_init [1, 7, 3]).2 16 7).2 = [3] := by
  have h := popm_terminator (pushAll cbuffer_init [1, 7, 3]).2 16 7 1
    ⟨by decide, by decide, by decide, by decide, by decide, by decide, by decide⟩
    (by decide) (by decide) (by decide) (by decide)
  exact ⟨h.1.trans (by decide), h.2.2.2.1.trans (by decide)⟩

theorem popm_no_terminator_witness :
    (cbuffer_popm (pushAll cbuffer_init [1, 2, 3]).2 2 9).1 = [1, 2] ∧
    (cbuffer_popm (pushAll cbuffer_init [1, 2, 3]).2 2 9).2.len = 0 ∧
    (cbuffer_pop (cbuffer_popm (pushAll cbuffer_init [1, 2, 3]).2 2 9).2 16).1 = [] := by
  have h := popm_no_terminator (pushAll cbuffer_init [1, 2, 3]).2 2 9
    ⟨by decide, by decide, by decide, by decide, by decide, by decide, by decide⟩
    (by decide)
  exact ⟨h.1.trans (by decide), h.2.2.1, h.2.2.2⟩

theorem bring_up_gating_witness :
    frame_opcodes (rfid_resume rfid0 [] false 0 0).2.1 = [0x04] ∧
    frame_opcodes (rfid_resume rfid0 resume_ok_stream false 0 0).2.1
      = [0x04, 0x97, 0x93, 0x98] ++ (if false then [0x92] else []) ++ [0x9a] := by
  constructor
  · exact ((bring_up_gating rfid0 [] false 0 0 _ rfl _ rfl _ _ _ _ _ rfl rfl rfl rfl rfl
      _ _ _ _ _ rfl rfl rfl rfl rfl).1 (by decide)).2
  · exact ((bring_up_gating rfid0 resume_ok_stream false 0 0 _ rfl _ rfl _ _ _ _ _
      rfl rfl rfl rfl rfl _ _ _ _ _ rfl rfl rfl rfl rfl).2.2
      (by decide) (by decide) (by decide) (by decide) (by decide)).1

end M5e
